import Mathlib

/-!
Verification of the calculator core (`app/operations.py`, `app/calculation.py`,
`app/history.py`, `app/calculator.py`) against its natural-language
specification.

Embedding conventions:
* Host floating-point numbers are idealised as exact rationals (`ℚ`).
  `power` / `root` use real-exponent host semantics; the `ℚ` embedding is
  exact on the integer-exponent fragment (`Rat.den = 1` of the exponent) and
  theorems about their numeric values carry that fragment hypothesis.
* Python exceptions become an explicit error kind `CalcError`; a raise that
  escapes a method leaves all prior state intact, so stateful methods return
  `Except CalcError result × new-state` with the old state returned unchanged
  on the error path, exactly mirroring the raise-before-mutation order of the
  source.
* `CalculationMemento.timestamp` (wall-clock string) is outside the embedding
  and is omitted; no claim mentions it.
* An observer's `notify` is opaque side-effecting host code; it is modelled by
  an identity tag plus a `throws` predicate saying on which records `notify`
  raises.  The observable effect of a notification round is the trace of
  `notify` invocations `(observer id, record)` in call order.
-/

/-- Error kinds raised by the core, named after the raise sites of the source:
`UnknownOperation` (factory `ValueError` for an unregistered keyword),
`InvalidMath` (`_err` `ValueError` in the guarded operation lambdas),
`ZeroDivision` (host `ZeroDivisionError` from `0.0 ** negative`),
`EmptyHistory` (`IndexError` from `History.undo` / `History.redo`). -/
inductive CalcError where
  | UnknownOperation
  | InvalidMath
  | ZeroDivision
  | EmptyHistory
deriving DecidableEq, Repr

/-- Decidable equality for `Except`, so that concrete runs of the embedding
can be checked by `decide`. -/
instance {ε α : Type} [DecidableEq ε] [DecidableEq α] :
    DecidableEq (Except ε α) := fun x y =>
  match x, y with
  | .ok a, .ok b =>
    if h : a = b then .isTrue (by rw [h])
    else .isFalse (by intro hc; cases hc; exact h rfl)
  | .error e, .error f =>
    if h : e = f then .isTrue (by rw [h])
    else .isFalse (by intro hc; cases hc; exact h rfl)
  | .ok _, .error _ => .isFalse (by intro hc; cases hc)
  | .error _, .ok _ => .isFalse (by intro hc; cases hc)

/-- ASCII fragment of Python `str.lower` on one character, the same mapping
the host applies to the operation keywords (all ASCII). -/
def lowerChar (c : Char) : Char :=
  if 65 ≤ c.toNat ∧ c.toNat ≤ 90 then Char.ofNat (c.toNat + 32) else c

/-- Python `op_name.lower()` (ASCII fragment), applied characterwise. -/
def pyLower (s : String) : String :=
  ⟨s.data.map lowerChar⟩

/-- The ten operation keywords of `operations.py` (each concrete class name,
lowercased by `_make_op`). -/
inductive OpName where
  | add | subtract | multiply | divide | power
  | root | modulus | intdivide | percent | absdiff
deriving DecidableEq, Repr

/-- The registry key / `Operation.name` attribute of each operation class. -/
def OpName.key : OpName → String
  | .add => "add"
  | .subtract => "subtract"
  | .multiply => "multiply"
  | .divide => "divide"
  | .power => "power"
  | .root => "root"
  | .modulus => "modulus"
  | .intdivide => "intdivide"
  | .percent => "percent"
  | .absdiff => "absdiff"

/-- Source lambda `_add = lambda a, b: a + b`. -/
def opAdd (a b : ℚ) : Except CalcError ℚ := .ok (a + b)

/-- Source lambda `_sub = lambda a, b: a - b`. -/
def opSub (a b : ℚ) : Except CalcError ℚ := .ok (a - b)

/-- Source lambda `_mul = lambda a, b: a * b`. -/
def opMul (a b : ℚ) : Except CalcError ℚ := .ok (a * b)

/-- Source lambda `_div = lambda a, b: a / b if b != 0 else _err("division by zero")`. -/
def opDiv (a b : ℚ) : Except CalcError ℚ :=
  if b ≠ 0 then .ok (a / b) else .error .InvalidMath

/-- Source lambda `_pow = lambda a, b: a ** b`.  Host `**` raises
`ZeroDivisionError` on a zero base with a negative exponent; otherwise, on the
integer-exponent fragment (`b.den = 1`) the value is exactly `a ^ b.num`.  For
a non-integer exponent the host value is irrational or complex and lies
outside the `ℚ` embedding; the definition extends by `a ^ b.num` there, and no
theorem relies on that region. -/
def opPow (a b : ℚ) : Except CalcError ℚ :=
  if a = 0 ∧ b < 0 then .error .ZeroDivision else .ok (a ^ b.num)

/-- Source lambda `_root = lambda a, n: a ** (1 / n) if n != 0 else _err("zero root")`:
the guarded case is host `**` applied to the exponent `1 / n`. -/
def opRoot (a n : ℚ) : Except CalcError ℚ :=
  if n ≠ 0 then opPow a (1 / n) else .error .InvalidMath

/-- Source lambda `_mod = lambda a, b: a % b if b != 0 else _err("modulo by zero")`.
Python `%` is floored modulus: `a - b * floor(a / b)`. -/
def opMod (a b : ℚ) : Except CalcError ℚ :=
  if b ≠ 0 then .ok (a - b * ⌊a / b⌋) else .error .InvalidMath

/-- Source lambda `_intdiv = lambda a, b: a // b if b != 0 else _err("int divide by zero")`.
Python `//` is `floor(a / b)` (returned as a number of the host type). -/
def opIntdiv (a b : ℚ) : Except CalcError ℚ :=
  if b ≠ 0 then .ok ((⌊a / b⌋ : ℚ)) else .error .InvalidMath

/-- Source lambda `_percent = lambda a, b: (a / b) * 100 if b != 0 else _err(...)`. -/
def opPercent (a b : ℚ) : Except CalcError ℚ :=
  if b ≠ 0 then .ok (a / b * 100) else .error .InvalidMath

/-- Source lambda `_absdiff = lambda a, b: abs(a - b)`. -/
def opAbsdiff (a b : ℚ) : Except CalcError ℚ := .ok |a - b|

/-- The `func` attribute installed on each operation class by `_make_op`. -/
def opFunc : OpName → (ℚ → ℚ → Except CalcError ℚ)
  | .add => opAdd
  | .subtract => opSub
  | .multiply => opMul
  | .divide => opDiv
  | .power => opPow
  | .root => opRoot
  | .modulus => opMod
  | .intdivide => opIntdiv
  | .percent => opPercent
  | .absdiff => opAbsdiff

/-- An `Operation` instance: the class (`kind`) plus the two validated
operands.  (Arity is fixed at two here; every concrete class has
`num_args = 2` and all claims supply exactly two operands.) -/
structure Operation where
  kind : OpName
  a : ℚ
  b : ℚ
deriving DecidableEq, Repr

/-- Source `Operation.evaluate`: `self.func(*self.operands)`. -/
def Operation.evaluateOp (op : Operation) : Except CalcError ℚ :=
  opFunc op.kind op.a op.b

/-- Source `OperationFactory._registry`: `{cls.name: cls for cls in (...)}` in the
declaration order of the tuple of classes. -/
def OperationFactory.registry : List (String × OpName) :=
  [("add", .add), ("subtract", .subtract), ("multiply", .multiply),
   ("divide", .divide), ("power", .power), ("root", .root),
   ("modulus", .modulus), ("intdivide", .intdivide),
   ("percent", .percent), ("absdiff", .absdiff)]

/-- Source `OperationFactory.create`: looks up `op_name.lower()` in the registry
(raising `ValueError` on a miss) and instantiates the class on the operands. -/
def OperationFactory.create (opName : String) (a b : ℚ) :
    Except CalcError Operation :=
  match OperationFactory.registry.lookup (pyLower opName) with
  | some k => .ok ⟨k, a, b⟩
  | none => .error .UnknownOperation

/-- Source `CalculationMemento` (`calculation.py`): immutable record of one
calculation; the wall-clock `timestamp` field is outside the embedding. -/
structure CalculationMemento where
  operation_name : String
  operands : ℚ × ℚ
  result : ℚ
deriving DecidableEq, Repr

/-- Source `CalculationMemento.from_operation`: re-evaluates the operation and
packages name, operands and result (the second `op_obj.evaluate()` call of the
source). -/
def CalculationMemento.fromOperation (op : Operation) :
    Except CalcError CalculationMemento :=
  op.evaluateOp.map fun r =>
    { operation_name := op.kind.key, operands := (op.a, op.b), result := r }

/-- An observer: an identity tag (list cells compare by reference in the
source) and the opaque behaviour of its `notify`, reduced to whether it raises
on a given record. -/
structure Observer where
  id : Nat
  throws : CalculationMemento → Bool

/-- Outcome of one `obs.notify(memento)` call. -/
inductive NotifyOutcome where
  | ok
  | raised
deriving DecidableEq, Repr

/-- Run one observer's `notify`. -/
def runNotify (o : Observer) (m : CalculationMemento) : NotifyOutcome :=
  if o.throws m then .raised else .ok

/-- Source `Calculator._notify_observers`: `for obs in self._observers: try:
obs.notify(memento) except Exception: pass` — each call's outcome is
discarded and iteration continues unconditionally.  The returned trace lists
the `notify` invocations `(observer id, record)` in call order. -/
def notifyObservers : List Observer → CalculationMemento →
    List (Nat × CalculationMemento)
  | [], _ => []
  | o :: rest, m =>
    let _outcome := runNotify o m
    (o.id, m) :: notifyObservers rest m

/-- Python `collections.deque(maxlen).append`: appends on the right; when a `maxlen`
is set and the deque is full, the leftmost (oldest) element is silently
discarded. -/
def dequeAppend (maxlen : Option Nat) (xs : List CalculationMemento)
    (x : CalculationMemento) : List CalculationMemento :=
  match maxlen with
  | none => xs ++ [x]
  | some m => (xs ++ [x]).drop (xs.length + 1 - m)

/-- Source `History` (`history.py`): two bounded deques, oldest on the left, newest
on the right, both created with the same `maxlen = max_size`. -/
structure History where
  past : List CalculationMemento
  future : List CalculationMemento
  maxSize : Option Nat
deriving DecidableEq, Repr

/-- Source `History.push`: `self._past.append(item); self._future.clear()`. -/
def History.push (h : History) (item : CalculationMemento) : History :=
  { h with past := dequeAppend h.maxSize h.past item, future := [] }

/-- Source `History.undo`: raises `IndexError` (before any mutation) if `past` is
empty; otherwise pops the rightmost `past` entry, appends it to `future`
(bounded), and returns it. -/
def History.undo (h : History) : Except CalcError CalculationMemento × History :=
  match h.past.getLast? with
  | none => (.error .EmptyHistory, h)
  | some item =>
    (.ok item,
     { h with past := h.past.dropLast,
              future := dequeAppend h.maxSize h.future item })

/-- Source `History.redo`: raises `IndexError` (before any mutation) if `future` is
empty; otherwise pops the rightmost `future` entry, appends it to `past`
(bounded), and returns it. -/
def History.redo (h : History) : Except CalcError CalculationMemento × History :=
  match h.future.getLast? with
  | none => (.error .EmptyHistory, h)
  | some item =>
    (.ok item,
     { h with future := h.future.dropLast,
              past := dequeAppend h.maxSize h.past item })

/-- Source `History.clear`: empties both deques. -/
def History.clear (h : History) : History :=
  { h with past := [], future := [] }

/-- Source `History.__len__`: `len(self._past)`. -/
def History.size (h : History) : Nat := h.past.length

/-- Source `History.snapshot`: `(tuple(self._past), tuple(self._future))`. -/
def History.snapshot (h : History) :
    List CalculationMemento × List CalculationMemento :=
  (h.past, h.future)

/-- Physical bound of a `deque(maxlen=m)`: its length never exceeds `m`.
Every pair of real deques satisfies this by construction of the host type. -/
def History.WF (h : History) : Prop :=
  ∀ m, h.maxSize = some m → h.past.length ≤ m ∧ h.future.length ≤ m

/-- Source `Calculator` (`calculator.py`): one `History` plus the ordered observer
list. -/
structure Calculator where
  hist : History
  observers : List Observer

/-- Source `Calculator.DEFAULT_MAX_HISTORY = 100`. -/
def Calculator.DEFAULT_MAX_HISTORY : Nat := 100

/-- Source `Calculator.__init__`: `History(max_size=max_history or
self.DEFAULT_MAX_HISTORY)` — both `None` and the falsy `0` select the
default — and an empty observer list.  (`max_history` is modelled as a
nonnegative count; a negative argument makes the host `deque` constructor
raise and no claim touches it.) -/
def Calculator.init (maxHistory : Option Nat) : Calculator :=
  { hist :=
      { past := [], future := [],
        maxSize := some (match maxHistory with
          | none => Calculator.DEFAULT_MAX_HISTORY
          | some n => if n = 0 then Calculator.DEFAULT_MAX_HISTORY else n) },
    observers := [] }

/-- Source `Calculator.register_observer`: appends to the observer list. -/
def Calculator.register_observer (c : Calculator) (o : Observer) : Calculator :=
  { c with observers := c.observers ++ [o] }

/-- Source `Calculator.evaluate`: create the operation (may raise), evaluate it (may
raise), build the memento (`from_operation` re-evaluates), push it, notify
observers, return the numeric result.  A raise escapes before any mutation or
notification, so those paths return the calculator unchanged with an empty
notification trace. -/
def Calculator.evaluate (c : Calculator) (opName : String) (a b : ℚ) :
    Except CalcError ℚ × Calculator × List (Nat × CalculationMemento) :=
  match OperationFactory.create opName a b with
  | .error e => (.error e, c, [])
  | .ok op =>
    match op.evaluateOp with
    | .error e => (.error e, c, [])
    | .ok result =>
      match CalculationMemento.fromOperation op with
      | .error e => (.error e, c, [])
      | .ok memento =>
        (.ok result, { c with hist := c.hist.push memento },
         notifyObservers c.observers memento)

/-- Source `Calculator.undo`: delegates to `History.undo`; contains no `notify`
call, hence the empty trace. -/
def Calculator.undo (c : Calculator) :
    Except CalcError CalculationMemento × Calculator × List (Nat × CalculationMemento) :=
  (c.hist.undo.1, { c with hist := c.hist.undo.2 }, [])

/-- Source `Calculator.redo`: delegates to `History.redo`; no `notify` call. -/
def Calculator.redo (c : Calculator) :
    Except CalcError CalculationMemento × Calculator × List (Nat × CalculationMemento) :=
  (c.hist.redo.1, { c with hist := c.hist.redo.2 }, [])

/-- Source `Calculator.clear_history`: delegates to `History.clear`; no `notify`
call. -/
def Calculator.clear_history (c : Calculator) :
    Calculator × List (Nat × CalculationMemento) :=
  ({ c with hist := c.hist.clear }, [])

/-- Source `Calculator.history`: `tuple(past)` of the snapshot, oldest first. -/
def Calculator.history (c : Calculator) : List CalculationMemento :=
  c.hist.past

/-- Source `Calculator.__len__` / the spec's `size()`: `len(self._history)`. -/
def Calculator.size (c : Calculator) : Nat :=
  c.hist.size

/-- Helper `pushAll`: run a sequence of pushes (left to right). -/
def pushAll (h : History) (rs : List CalculationMemento) : History :=
  rs.foldl History.push h

/-- The suffix of the most recent `n` entries (a bounded deque's content). -/
def takeLast (n : Nat) (xs : List CalculationMemento) : List CalculationMemento :=
  xs.drop (xs.length - n)

/-- Sample record used by concrete counterexamples and witnesses. -/
def memA : CalculationMemento := ⟨"add", (1, 1), 2⟩

/-- Second sample record. -/
def memB : CalculationMemento := ⟨"add", (2, 2), 4⟩

/-- Lowercasing an upper-case ASCII letter yields a character that
lowercasing fixes. -/
theorem lowerChar_ofAdd (n : Nat) (h65 : 65 ≤ n) (h90 : n ≤ 90) :
    lowerChar (Char.ofNat (n + 32)) = Char.ofNat (n + 32) := by
  interval_cases n <;> decide

/-- Function `lowerChar` is idempotent. -/
theorem lowerChar_idem (c : Char) : lowerChar (lowerChar c) = lowerChar c := by
  by_cases h : 65 ≤ c.toNat ∧ c.toNat ≤ 90
  · have h1 : lowerChar c = Char.ofNat (c.toNat + 32) := by
      unfold lowerChar; rw [if_pos h]
    rw [h1]
    exact lowerChar_ofAdd c.toNat h.1 h.2
  · have h1 : lowerChar c = c := by
      unfold lowerChar; rw [if_neg h]
    rw [h1]
    exact h1

/-- Function `pyLower` is idempotent, as Python's `str.lower`. -/
theorem pyLower_idem (s : String) : pyLower (pyLower s) = pyLower s := by
  unfold pyLower
  simp [List.map_map, Function.comp_def, lowerChar_idem]

/-- Looking up the canonical key of an operation finds that operation. -/
theorem lookup_key (op : OpName) :
    OperationFactory.registry.lookup (pyLower op.key) = some op := by
  cases op <;> decide

/-- Case of `evaluate` when the factory lookup misses: the `ValueError` escapes
before any state change. -/
theorem evaluate_unknown (c : Calculator) (name : String) (a b : ℚ)
    (h : OperationFactory.registry.lookup (pyLower name) = none) :
    c.evaluate name a b = (.error .UnknownOperation, c, []) := by
  unfold Calculator.evaluate OperationFactory.create
  rw [h]

/-- Case of `evaluate` when the operation's function raises: the error escapes
before any push or notification. -/
theorem evaluate_op_error (c : Calculator) (name : String) (a b : ℚ)
    (k : OpName) (e : CalcError)
    (hk : OperationFactory.registry.lookup (pyLower name) = some k)
    (hf : opFunc k a b = .error e) :
    c.evaluate name a b = (.error e, c, []) := by
  unfold Calculator.evaluate OperationFactory.create
  rw [hk]
  simp [Operation.evaluateOp, hf]

/-- Case of `evaluate` on a successful operation: the result is returned, the
memento is pushed, and the observers are notified in order. -/
theorem evaluate_op_ok (c : Calculator) (name : String) (a b : ℚ)
    (k : OpName) (r : ℚ)
    (hk : OperationFactory.registry.lookup (pyLower name) = some k)
    (hf : opFunc k a b = .ok r) :
    c.evaluate name a b =
      (.ok r, { c with hist := c.hist.push ⟨k.key, (a, b), r⟩ },
       notifyObservers c.observers ⟨k.key, (a, b), r⟩) := by
  unfold Calculator.evaluate OperationFactory.create
  rw [hk]
  simp [Operation.evaluateOp, CalculationMemento.fromOperation, hf, Except.map]

/-- Inversion of a successful `evaluate`: it came from a registered
operation whose function succeeded, and the final state and trace are the
push and the notification round on the new memento. -/
theorem evaluate_ok_inv (c : Calculator) (name : String) (a b r : ℚ)
    (c' : Calculator) (tr : List (Nat × CalculationMemento))
    (h : c.evaluate name a b = (.ok r, c', tr)) :
    ∃ k : OpName,
      OperationFactory.registry.lookup (pyLower name) = some k ∧
      opFunc k a b = .ok r ∧
      c' = { c with hist := c.hist.push ⟨k.key, (a, b), r⟩ } ∧
      tr = notifyObservers c.observers ⟨k.key, (a, b), r⟩ := by
  cases hk : OperationFactory.registry.lookup (pyLower name) with
  | none =>
    rw [evaluate_unknown c name a b hk] at h
    exact absurd h (by simp)
  | some k =>
    cases hf : opFunc k a b with
    | error e =>
      rw [evaluate_op_error c name a b k e hk hf] at h
      exact absurd h (by simp)
    | ok v =>
      rw [evaluate_op_ok c name a b k v hk hf] at h
      simp only [Prod.mk.injEq, Except.ok.injEq] at h
      obtain ⟨rfl, h2, h3⟩ := h
      exact ⟨k, rfl, hf, h2.symm, h3.symm⟩

/-- A notification round invokes exactly the registered observers, in
order, each with the record. -/
theorem notify_map (obs : List Observer) (m : CalculationMemento) :
    notifyObservers obs m = obs.map fun o => (o.id, m) := by
  induction obs with
  | nil => rfl
  | cons o rest ih => simp [notifyObservers, ih]

/-- A bounded deque append stays within the bound. -/
theorem dequeAppend_length_le (m : Nat) (xs : List CalculationMemento)
    (x : CalculationMemento) : (dequeAppend (some m) xs x).length ≤ m := by
  simp [dequeAppend]
  omega

/-- A bounded deque append is the plain append truncated to the most
recent `m` entries. -/
theorem dequeAppend_some_eq_takeLast (m : Nat) (xs : List CalculationMemento)
    (x : CalculationMemento) :
    dequeAppend (some m) xs x = takeLast m (xs ++ [x]) := by
  simp [dequeAppend, takeLast]

/-- The just-appended element is the most recent entry of the deque, for
any positive bound that applies. -/
theorem getLast?_dequeAppend (maxlen : Option Nat) (xs : List CalculationMemento)
    (x : CalculationMemento) (hpos : ∀ m, maxlen = some m → 0 < m) :
    (dequeAppend maxlen xs x).getLast? = some x := by
  cases maxlen with
  | none => simp [dequeAppend]
  | some m =>
    have hm : 0 < m := hpos m rfl
    have hle : xs.length + 1 - m ≤ xs.length := by omega
    simp only [dequeAppend]
    rw [List.drop_append_of_le_length hle]
    exact List.getLast?_concat _

/-- An unevicted append: when the deque is not yet full, nothing is
dropped. -/
theorem dequeAppend_of_lt (m : Nat) (xs : List CalculationMemento)
    (x : CalculationMemento) (h : xs.length < m) :
    dequeAppend (some m) xs x = xs ++ [x] := by
  simp only [dequeAppend]
  have : xs.length + 1 - m = 0 := by omega
  rw [this, List.drop_zero]

/-- Taking `takeLast` of a list already within the bound is the list itself. -/
theorem takeLast_of_le (n : Nat) (xs : List CalculationMemento)
    (h : xs.length ≤ n) : takeLast n xs = xs := by
  simp [takeLast, Nat.sub_eq_zero_of_le h]

/-- Truncating to the most recent `n`, appending, and truncating again is
the same as truncating the full sequence: eviction is compositional. -/
theorem takeLast_takeLast_append (n : Nat) (xs ys : List CalculationMemento) :
    takeLast n (takeLast n xs ++ ys) = takeLast n (xs ++ ys) := by
  by_cases hle : xs.length ≤ n
  · rw [takeLast_of_le n xs hle]
  · have hd : xs.length - n ≤ xs.length := Nat.sub_le _ _
    unfold takeLast
    have h1 : xs.drop (xs.length - n) ++ ys = (xs ++ ys).drop (xs.length - n) :=
      (List.drop_append_of_le_length hd).symm
    rw [h1, List.drop_drop]
    congr 1
    simp only [List.length_drop, List.length_append]
    omega

/-- Folding pushes over a bounded history: the past deque is the full
pushed sequence truncated to the most recent `N`. -/
theorem pushAll_past (N : Nat) (rs : List CalculationMemento) :
    ∀ (h : History), h.maxSize = some N → h.past.length ≤ N →
      (pushAll h rs).past = takeLast N (h.past ++ rs) := by
  induction rs with
  | nil =>
    intro h _ hlen
    simp [pushAll, takeLast_of_le N h.past hlen]
  | cons r rest ih =>
    intro h hms hlen
    have hstep : (h.push r).past = takeLast N (h.past ++ [r]) := by
      simp [History.push, hms, dequeAppend_some_eq_takeLast]
    have hstepms : (h.push r).maxSize = some N := by simp [History.push, hms]
    have hsteplen : (h.push r).past.length ≤ N := by
      rw [hstep]
      simp only [takeLast, List.length_drop]
      omega
    have : pushAll h (r :: rest) = pushAll (h.push r) rest := rfl
    rw [this, ih (h.push r) hstepms hsteplen, hstep,
        takeLast_takeLast_append]
    simp

/-- Any nonempty sequence of pushes leaves the redo deque empty. -/
theorem pushAll_future (rs : List CalculationMemento) :
    ∀ (h : History), rs ≠ [] → (pushAll h rs).future = [] := by
  induction rs with
  | nil => intro h hne; exact absurd rfl hne
  | cons r rest ih =>
    intro h _
    by_cases hrest : rest = []
    · subst hrest
      simp [pushAll, History.push]
    · exact ih (h.push r) hrest

/-- Pushing preserves the deque bounds. -/
theorem wf_push (h : History) (i : CalculationMemento) (_hwf : h.WF) :
    (h.push i).WF := by
  intro m hm
  simp only [History.push] at hm ⊢
  rw [hm]
  exact ⟨dequeAppend_length_le m h.past i, by simp⟩

/-- Undo preserves the deque bounds. -/
theorem wf_undo (h : History) (hwf : h.WF) : h.undo.2.WF := by
  cases hl : h.past.getLast? with
  | none =>
    intro m hm
    simp only [History.undo, hl] at hm ⊢
    exact hwf m hm
  | some item =>
    intro m hm
    simp only [History.undo, hl] at hm ⊢
    obtain ⟨h1, _⟩ := hwf m hm
    rw [hm]
    constructor
    · have := h.past.length_dropLast
      omega
    · exact dequeAppend_length_le m h.future item

/-- Redo preserves the deque bounds. -/
theorem wf_redo (h : History) (hwf : h.WF) : h.redo.2.WF := by
  cases hl : h.future.getLast? with
  | none =>
    intro m hm
    simp only [History.redo, hl] at hm ⊢
    exact hwf m hm
  | some item =>
    intro m hm
    simp only [History.redo, hl] at hm ⊢
    obtain ⟨_, h2⟩ := hwf m hm
    rw [hm]
    constructor
    · exact dequeAppend_length_le m h.past item
    · have := h.future.length_dropLast
      omega

/-- Clearing preserves the deque bounds. -/
theorem wf_clear (h : History) (_hwf : h.WF) : h.clear.WF := by
  intro m _
  simp [History.clear]

/-- Modelled from the spec: the value column of the table in §4.1, read on
the exactly-representable fragment (the `power` and `root` formulas
`a^b` and `a^(1/b)` are integer-exponent powers there). -/
def specValue : OpName → ℚ → ℚ → ℚ
  | .add, a, b => a + b
  | .subtract, a, b => a - b
  | .multiply, a, b => a * b
  | .divide, a, b => a / b
  | .power, a, b => a ^ b.num
  | .root, a, b => a ^ (1 / b).num
  | .modulus, a, b => a - b * ⌊a / b⌋
  | .intdivide, a, b => (⌊a / b⌋ : ℚ)
  | .percent, a, b => a / b * 100
  | .absdiff, a, b => |a - b|

/-- Modelled from the spec: the precondition column of the table in §4.1. -/
def specPrecond : OpName → ℚ → ℚ → Prop
  | .divide, _, b => b ≠ 0
  | .root, _, b => b ≠ 0
  | .modulus, _, b => b ≠ 0
  | .intdivide, _, b => b ≠ 0
  | .percent, _, b => b ≠ 0
  | _, _, _ => True

/-- Amendment forced by the host: `power` and `root` additionally require a
nonzero base or a nonnegative exponent, because the host raises
`ZeroDivisionError` on `0.0 ** negative` (for `root` the exponent is `1/b`,
negative exactly when `b` is). -/
def hostMathDefined : OpName → ℚ → ℚ → Prop
  | .power, a, b => ¬(a = 0 ∧ b < 0)
  | .root, a, b => ¬(a = 0 ∧ b < 0)
  | _, _, _ => True

/-- Domain of the exact `ℚ` embedding of the host's real-exponent `**`:
integer exponents.  Outside it the host value is irrational or complex and
is not represented. -/
def exactFragment : OpName → ℚ → ℚ → Prop
  | .power, _, b => b.den = 1
  | .root, _, b => (1 / b).den = 1
  | _, _, _ => True

/-- A successful `add 2 3` on any calculator state: returns `5`, pushes the
record, notifies every observer with it, in order. -/
theorem eval_add_2_3_gen (h : History) (obs : List Observer) :
    (Calculator.mk h obs).evaluate "add" 2 3 =
      (.ok 5, Calculator.mk (h.push ⟨"add", (2, 3), 5⟩) obs,
       obs.map fun o => (o.id, (⟨"add", (2, 3), 5⟩ : CalculationMemento))) := by
  rw [evaluate_op_ok (Calculator.mk h obs) "add" 2 3 .add 5 (by decide)
      (by norm_num [opFunc, opAdd]), notify_map]
  rfl

/-- C1: an operation with a zero-denominator precondition (`divide`,
`root`, `modulus`, `intdivide`, `percent`) applied with second operand `0`
fails with `InvalidMath`, the calculator state (history, size, future
stack) is exactly the pre-call state, and no observer is invoked (the
notification trace is empty). -/
theorem claim1_zero_denominator_fails_clean (name : String)
    (hmem : name ∈ (["divide", "root", "modulus", "intdivide", "percent"] :
      List String)) (c : Calculator) (a : ℚ) :
    c.evaluate name a 0 = (.error .InvalidMath, c, []) := by
  simp only [List.mem_cons, List.mem_singleton, List.not_mem_nil, or_false] at hmem
  rcases hmem with rfl | rfl | rfl | rfl | rfl
  · exact evaluate_op_error c _ a 0 .divide .InvalidMath (by decide)
      (by simp [opFunc, opDiv])
  · exact evaluate_op_error c _ a 0 .root .InvalidMath (by decide)
      (by simp [opFunc, opRoot])
  · exact evaluate_op_error c _ a 0 .modulus .InvalidMath (by decide)
      (by simp [opFunc, opMod])
  · exact evaluate_op_error c _ a 0 .intdivide .InvalidMath (by decide)
      (by simp [opFunc, opIntdiv])
  · exact evaluate_op_error c _ a 0 .percent .InvalidMath (by decide)
      (by simp [opFunc, opPercent])

/-- Witness for C1 at `divide 5 0` on a fresh calculator. -/
theorem claim1_witness :
    (Calculator.init none).evaluate "divide" 5 0 =
      (.error .InvalidMath, Calculator.init none, []) :=
  claim1_zero_denominator_fails_clean "divide" (by decide)
    (Calculator.init none) 5

/-- C5: a push leaves the future stack empty unconditionally, so a redo
straight after any push fails with `EmptyHistory`; consequently after any
successful `evaluate` the redo fails with `EmptyHistory` until an undo
occurs. -/
theorem claim5_push_clears_future :
    (∀ (h : History) (i : CalculationMemento),
      (h.push i).future = [] ∧ (h.push i).redo.1 = .error .EmptyHistory) ∧
    (∀ (c : Calculator) (name : String) (a b r : ℚ) (c' : Calculator)
      (tr : List (Nat × CalculationMemento)),
      c.evaluate name a b = (.ok r, c', tr) →
      c'.hist.future = [] ∧ c'.redo.1 = .error .EmptyHistory) := by
  constructor
  · intro h i
    exact ⟨rfl, by simp [History.redo, History.push]⟩
  · intro c name a b r c' tr hev
    obtain ⟨k, _, _, hc', _⟩ := evaluate_ok_inv c name a b r c' tr hev
    subst hc'
    exact ⟨rfl, by simp [Calculator.redo, History.redo, History.push]⟩

/-- Witness for C5: after `add 2 3` on a fresh calculator the redo fails. -/
theorem claim5_witness :
    (Calculator.mk (History.push ⟨[], [], some 100⟩ ⟨"add", (2, 3), 5⟩)
        []).hist.future = [] ∧
    (Calculator.mk (History.push ⟨[], [], some 100⟩ ⟨"add", (2, 3), 5⟩)
        []).redo.1 = .error .EmptyHistory :=
  claim5_push_clears_future.2 (Calculator.mk ⟨[], [], some 100⟩ [])
    "add" 2 3 5 _ _ (eval_add_2_3_gen ⟨[], [], some 100⟩ [])

/-- C8: undo with an empty past and redo with an empty future fail with
`EmptyHistory`, and in either failing case both stacks (the whole history
state) are unchanged. -/
theorem claim8_empty_undo_redo (h : History) :
    (h.past = [] → h.undo = (.error .EmptyHistory, h)) ∧
    (h.future = [] → h.redo = (.error .EmptyHistory, h)) := by
  constructor
  · intro hp
    simp [History.undo, hp]
  · intro hf
    simp [History.redo, hf]

/-- Witness for C8 on the fresh bounded history. -/
theorem claim8_witness :
    (⟨[], [], some 3⟩ : History).undo =
      (.error .EmptyHistory, (⟨[], [], some 3⟩ : History)) ∧
    (⟨[], [], some 3⟩ : History).redo =
      (.error .EmptyHistory, (⟨[], [], some 3⟩ : History)) :=
  ⟨(claim8_empty_undo_redo _).1 rfl, (claim8_empty_undo_redo _).2 rfl⟩

/-- C9: `max_history = 0` is falsy, so the constructor substitutes the
default capacity `100`: the calculator is identical to the
default-constructed one, its capacity is `DEFAULT_MAX_HISTORY`, and one
successful `evaluate` leaves `size() = 1` (not `0`). -/
theorem claim9_zero_capacity_uses_default :
    Calculator.init (some 0) = Calculator.init none ∧
    (Calculator.init (some 0)).hist.maxSize =
      some Calculator.DEFAULT_MAX_HISTORY ∧
    (∀ (name : String) (a b r : ℚ) (c' : Calculator)
      (tr : List (Nat × CalculationMemento)),
      (Calculator.init (some 0)).evaluate name a b = (.ok r, c', tr) →
      c'.size = 1) := by
  refine ⟨rfl, rfl, ?_⟩
  intro name a b r c' tr hev
  obtain ⟨k, _, _, hc', _⟩ := evaluate_ok_inv _ name a b r c' tr hev
  subst hc'
  simp [Calculator.size, History.size, History.push, Calculator.init,
    dequeAppend, Calculator.DEFAULT_MAX_HISTORY]

/-- Witness for C9: `add 2 3` on a `max_history = 0` calculator gives
`size() = 1`. -/
theorem claim9_witness :
    ((Calculator.init (some 0)).evaluate "add" 2 3).2.1.size = 1 := by
  have he : (Calculator.init (some 0)).evaluate "add" 2 3 =
      (.ok 5, Calculator.mk
        (History.push ⟨[], [], some 100⟩ ⟨"add", (2, 3), 5⟩) [], []) :=
    eval_add_2_3_gen ⟨[], [], some 100⟩ []
  rw [he]
  exact claim9_zero_capacity_uses_default.2.2 "add" 2 3 5 _ _ he

/-- C10: operation-name resolution is case-insensitive: `evaluate` behaves
identically (same result or failure, same new state, same notification
trace) on a name and on its lowercased form, because the factory lowercases
the name before the registry lookup and lowercasing is idempotent. -/
theorem claim10_case_insensitive (c : Calculator) (name : String) (a b : ℚ) :
    c.evaluate name a b = c.evaluate (pyLower name) a b := by
  unfold Calculator.evaluate OperationFactory.create
  rw [pyLower_idem]

/-- C2: with observers `pre ++ bad :: post` where `bad`'s `notify` raises,
`evaluate` returns exactly what it returns with `bad` absent (the per-
observer `try/except` keeps the exception from propagating and from
touching the result), and on success every observer after `bad` is still
invoked, with the same record, after `bad`'s invocation. -/
theorem claim2_throwing_observer_isolated (h : History)
    (pre post : List Observer) (bad : Observer) (name : String) (a b : ℚ)
    (_hthrows : ∀ m, bad.throws m = true) :
    ((Calculator.mk h (pre ++ bad :: post)).evaluate name a b).1 =
      ((Calculator.mk h (pre ++ post)).evaluate name a b).1 ∧
    (∀ (r : ℚ) (c' : Calculator) (tr : List (Nat × CalculationMemento)),
      (Calculator.mk h (pre ++ bad :: post)).evaluate name a b =
        (.ok r, c', tr) →
      ∃ m : CalculationMemento,
        tr = (pre.map fun o => (o.id, m)) ++
          (bad.id, m) :: (post.map fun o => (o.id, m))) := by
  constructor
  · cases hk : OperationFactory.registry.lookup (pyLower name) with
    | none =>
      rw [evaluate_unknown _ name a b hk, evaluate_unknown _ name a b hk]
    | some k =>
      cases hf : opFunc k a b with
      | error e =>
        rw [evaluate_op_error _ name a b k e hk hf,
            evaluate_op_error _ name a b k e hk hf]
      | ok r =>
        rw [evaluate_op_ok _ name a b k r hk hf,
            evaluate_op_ok _ name a b k r hk hf]
  · intro r c' tr hev
    obtain ⟨k, _, _, _, htr⟩ := evaluate_ok_inv _ name a b r c' tr hev
    refine ⟨⟨k.key, (a, b), r⟩, ?_⟩
    rw [htr, notify_map]
    simp

/-- Witness for C2: observers `#0`, throwing `#1`, `#2` around `add 2 3`;
the trace still contains `#2`'s invocation, after `#1`'s, with the record. -/
theorem claim2_witness :
    ∃ m : CalculationMemento,
      ([(0, (⟨"add", (2, 3), 5⟩ : CalculationMemento)),
        (1, ⟨"add", (2, 3), 5⟩), (2, ⟨"add", (2, 3), 5⟩)] :
          List (Nat × CalculationMemento)) =
        (([⟨0, fun _ => false⟩] : List Observer).map fun o => (o.id, m)) ++
          ((⟨1, fun _ => true⟩ : Observer).id, m) ::
            (([⟨2, fun _ => false⟩] : List Observer).map fun o => (o.id, m)) :=
  (claim2_throwing_observer_isolated ⟨[], [], some 10⟩
      [⟨0, fun _ => false⟩] [⟨2, fun _ => false⟩] ⟨1, fun _ => true⟩
      "add" 2 3 (fun _ => rfl)).2 5
    (Calculator.mk (History.push ⟨[], [], some 10⟩ ⟨"add", (2, 3), 5⟩)
      [⟨0, fun _ => false⟩, ⟨1, fun _ => true⟩, ⟨2, fun _ => false⟩])
    [(0, ⟨"add", (2, 3), 5⟩), (1, ⟨"add", (2, 3), 5⟩), (2, ⟨"add", (2, 3), 5⟩)]
    (eval_add_2_3_gen ⟨[], [], some 10⟩
      [⟨0, fun _ => false⟩, ⟨1, fun _ => true⟩, ⟨2, fun _ => false⟩])

/-- C7: every successful `evaluate` invokes each registered observer
exactly once, in registration order (a observer registered twice fires
once per registration, as the trace is the map over the registration
list), with the newly pushed record; `undo`, `redo` and `clear_history`
invoke no observer. -/
theorem claim7_observers_fire_once_in_order :
    (∀ (c : Calculator) (name : String) (a b r : ℚ) (c' : Calculator)
      (tr : List (Nat × CalculationMemento)),
      c.evaluate name a b = (.ok r, c', tr) →
      ∃ m : CalculationMemento,
        c'.hist = c.hist.push m ∧ m.result = r ∧ m.operands = (a, b) ∧
        tr = c.observers.map fun o => (o.id, m)) ∧
    (∀ c : Calculator,
      c.undo.2.2 = [] ∧ c.redo.2.2 = [] ∧ c.clear_history.2 = []) := by
  constructor
  · intro c name a b r c' tr hev
    obtain ⟨k, _, _, hc', htr⟩ := evaluate_ok_inv c name a b r c' tr hev
    refine ⟨⟨k.key, (a, b), r⟩, ?_, rfl, rfl, ?_⟩
    · rw [hc']
    · rw [htr, notify_map]
  · intro c
    exact ⟨rfl, rfl, rfl⟩

/-- Witness for C7: one observer `#7`, `add 2 3`: the trace is exactly one
invocation of `#7` with the new record. -/
theorem claim7_witness :
    ∃ m : CalculationMemento,
      History.push ⟨[], [], some 10⟩ ⟨"add", (2, 3), 5⟩ =
        History.push ⟨[], [], some 10⟩ m ∧
      m.result = 5 ∧ m.operands = (2, 3) ∧
      ([((7 : Nat), (⟨"add", (2, 3), 5⟩ : CalculationMemento))] :
          List (Nat × CalculationMemento)) =
        ([⟨7, fun _ => false⟩] : List Observer).map fun o => (o.id, m) :=
  claim7_observers_fire_once_in_order.1
    (Calculator.mk ⟨[], [], some 10⟩ [⟨7, fun _ => false⟩]) "add" 2 3 5 _ _
    (eval_add_2_3_gen ⟨[], [], some 10⟩ [⟨7, fun _ => false⟩])

/-- C6: on any (physically realisable) history state with a nonempty past,
undo followed by redo returns the same record both times, restores the
past stack to its pre-undo contents, and hence restores `size()` to its
pre-undo value. -/
theorem claim6_undo_redo_roundtrip (h : History) (hwf : h.WF)
    (hne : h.past ≠ []) :
    h.undo.2.redo.1 = h.undo.1 ∧
    h.undo.2.redo.2.past = h.past ∧
    h.undo.2.redo.2.size = h.size := by
  obtain hnil | ⟨ys, y, hy⟩ := h.past.eq_nil_or_concat
  · exact absurd hnil hne
  · rw [List.concat_eq_append] at hy
    have hl : h.past.getLast? = some y := by
      rw [hy]; exact List.getLast?_concat ys
    have hdrop : h.past.dropLast = ys := by
      rw [hy]; exact List.dropLast_concat
    have hpos : ∀ m, h.maxSize = some m → 0 < m := by
      intro m hm
      have hlen := (hwf m hm).1
      rw [hy, List.length_append] at hlen
      simp at hlen
      omega
    have hfl : (dequeAppend h.maxSize h.future y).getLast? = some y :=
      getLast?_dequeAppend h.maxSize h.future y hpos
    have hpast2 : dequeAppend h.maxSize ys y = ys ++ [y] := by
      cases hms : h.maxSize with
      | none => rfl
      | some m =>
        apply dequeAppend_of_lt
        have hlen := (hwf m hms).1
        rw [hy, List.length_append] at hlen
        simp at hlen
        omega
    simp only [History.undo, hl]
    simp only [History.redo, hfl]
    rw [hdrop, hpast2, hy]
    simp [History.size, hy]

/-- Witness for C6 on the one-record bounded history. -/
theorem claim6_witness :
    (⟨[memA], [], some 5⟩ : History).undo.2.redo.1 =
      (⟨[memA], [], some 5⟩ : History).undo.1 ∧
    (⟨[memA], [], some 5⟩ : History).undo.2.redo.2.past = [memA] ∧
    (⟨[memA], [], some 5⟩ : History).undo.2.redo.2.size =
      (⟨[memA], [], some 5⟩ : History).size :=
  claim6_undo_redo_roundtrip ⟨[memA], [], some 5⟩
    (by intro m hm; cases hm; exact ⟨by decide, by decide⟩) (by simp)

/-- Counterexample to C3 as stated: `power` carries no precondition in the
table, yet `evaluate("power", 0, -1)` does not return the table value — the
host raises `ZeroDivisionError` on `0.0 ** -1`, so `evaluate` fails and the
history stays empty instead of ending with a `power` record. -/
theorem claim3_counterexample :
    ((Calculator.init none).evaluate "power" 0 (-1)).1 = .error .ZeroDivision ∧
    ((Calculator.init none).evaluate "power" 0 (-1)).2.1.history = [] := by
  have hf : opFunc .power 0 (-1) = .error .ZeroDivision := by
    norm_num [opFunc, opPow]
  rw [evaluate_op_error (Calculator.init none) "power" 0 (-1) .power
      .ZeroDivision (by decide) hf]
  exact ⟨rfl, rfl⟩

/-- C3 (amended): for every valid `(name, a, b)` meeting the table's
precondition — with `power` and `root` additionally requiring a nonzero
base or nonnegative exponent (`hostMathDefined`, the amendment forced by
the counterexample) — `evaluate` returns the table value and the history
then ends with the record `(name, (a, b), result)`.  `exactFragment`
restricts `power`/`root` to integer exponents, the domain on which the `ℚ`
embedding of the host's real-exponent `**` is exact; `hcap` states the
positive capacity every `Calculator.__init__` establishes. -/
theorem claim3_amended_table_and_record (op : OpName) (a b : ℚ)
    (c : Calculator) (hpre : specPrecond op a b)
    (hhost : hostMathDefined op a b) (hfrag : exactFragment op a b)
    (hcap : ∀ m, c.hist.maxSize = some m → 0 < m) :
    (c.evaluate op.key a b).1 = .ok (specValue op a b) ∧
    (c.evaluate op.key a b).2.1.history.getLast? =
      some ⟨op.key, (a, b), specValue op a b⟩ := by
  have hf : opFunc op a b = .ok (specValue op a b) := by
    cases op with
    | add => simp [opFunc, opAdd, specValue]
    | subtract => simp [opFunc, opSub, specValue]
    | multiply => simp [opFunc, opMul, specValue]
    | divide =>
      have hb : b ≠ 0 := hpre
      simp [opFunc, opDiv, specValue, hb]
    | power =>
      have hh : ¬(a = 0 ∧ b < 0) := hhost
      simp [opFunc, opPow, specValue, hh]
    | root =>
      have hb : b ≠ 0 := hpre
      have hh : ¬(a = 0 ∧ b < 0) := hhost
      have h1 : ¬(a = 0 ∧ 1 / b < 0) := by
        rw [one_div_neg]
        exact hh
      show opRoot a b = .ok (specValue .root a b)
      unfold opRoot opPow
      rw [if_pos hb, if_neg h1]
      rfl
    | modulus =>
      have hb : b ≠ 0 := hpre
      simp [opFunc, opMod, specValue, hb]
    | intdivide =>
      have hb : b ≠ 0 := hpre
      simp [opFunc, opIntdiv, specValue, hb]
    | percent =>
      have hb : b ≠ 0 := hpre
      simp [opFunc, opPercent, specValue, hb]
    | absdiff => simp [opFunc, opAbsdiff, specValue]
  rw [evaluate_op_ok c op.key a b op (specValue op a b) (lookup_key op) hf]
  refine ⟨rfl, ?_⟩
  simp only [Calculator.history, History.push]
  exact getLast?_dequeAppend _ _ _ hcap

/-- Witness for the amended C3 at `divide 6 3` on a fresh calculator. -/
theorem claim3_witness :
    ((Calculator.init none).evaluate (OpName.key .divide) 6 3).1 =
      .ok (specValue .divide 6 3) ∧
    ((Calculator.init none).evaluate (OpName.key .divide) 6 3).2.1.history.getLast? =
      some ⟨OpName.key .divide, (6, 3), specValue .divide 6 3⟩ :=
  claim3_amended_table_and_record .divide 6 3 (Calculator.init none)
    (by norm_num [specPrecond]) (by simp [hostMathDefined])
    (by simp [exactFragment]) (by intro m hm; cases hm; decide)

/-- Counterexample to C4 as stated: with `max_size = 1`, the operation
sequence `push memA; push memB; undo()` contains `2 = N + 1` pushes and no
clear, yet afterwards the past stack holds `0` records, not `N = 1`, and in
particular not the most recent push `memB` — "any sequence containing `N+k`
pushes" fails once undo/redo may intervene. -/
theorem claim4_counterexample :
    (((⟨[], [], some 1⟩ : History).push memA).push memB).undo.2.past = [] ∧
    (((⟨[], [], some 1⟩ : History).push memA).push memB).undo.2.past.length ≠ 1 := by
  exact ⟨rfl, by decide⟩

/-- C4 (amended): for a history bounded by `max_size = N`, a sequence
consisting of `N + k` pushes only (`k ≥ 1`, no other operation in between)
leaves exactly the most recent `N` pushed records in the past stack (the
`k` oldest silently evicted) and the future stack empty; and every
operation — push, undo, redo, clear — preserves the bounds
`len(past) ≤ N` and `len(future) ≤ N` (push, being total, never raises). -/
theorem claim4_amended_bounded_eviction :
    (∀ (N k : Nat) (rs : List CalculationMemento),
      rs.length = N + k → 1 ≤ k →
      (pushAll ⟨[], [], some N⟩ rs).past = rs.drop k ∧
      (pushAll ⟨[], [], some N⟩ rs).past.length = N ∧
      (pushAll ⟨[], [], some N⟩ rs).future = []) ∧
    (∀ (h : History) (i : CalculationMemento), h.WF → (h.push i).WF) ∧
    (∀ h : History, h.WF → h.undo.2.WF) ∧
    (∀ h : History, h.WF → h.redo.2.WF) ∧
    (∀ h : History, h.WF → h.clear.WF) := by
  refine ⟨?_, wf_push, wf_undo, wf_redo, wf_clear⟩
  intro N k rs hlen hk
  have h1 : (pushAll ⟨[], [], some N⟩ rs).past = takeLast N rs := by
    have hp := pushAll_past N rs ⟨[], [], some N⟩ rfl (by simp)
    simpa using hp
  have h2 : takeLast N rs = rs.drop k := by
    unfold takeLast
    rw [hlen]
    congr 1
    omega
  refine ⟨h1.trans h2, ?_, ?_⟩
  · rw [h1.trans h2]
    simp only [List.length_drop, hlen]
    omega
  · apply pushAll_future
    intro hnil
    rw [hnil] at hlen
    simp at hlen
    omega

/-- Witness for the amended C4: `N = 1`, `k = 1`, pushing `[memA, memB]`
retains exactly `[memB]`. -/
theorem claim4_witness :
    (pushAll ⟨[], [], some 1⟩ [memA, memB]).past = [memA, memB].drop 1 ∧
    (pushAll ⟨[], [], some 1⟩ [memA, memB]).past.length = 1 ∧
    (pushAll ⟨[], [], some 1⟩ [memA, memB]).future = [] :=
  claim4_amended_bounded_eviction.1 1 1 [memA, memB] (by decide) (by decide)
